import Mathlib

/-!
# Verification of the trade ledger of `src/backend/portfolioManager.js`

Shallow embedding of the portfolio manager (the trade ledger and
position-lifecycle engine).  Conventions of the embedding:

* JS float64 numbers are modelled as exact rationals (`ℚ`).
* `Date.now()` is an explicit `now : ℕ` parameter threaded into every
  operation.  The source stores `Date.now().toString()` as the position
  identifier and `new Date().toISOString()` as the entry/exit date; both
  are injective images of the millisecond timestamp and are only ever
  compared for equality, so the embedding keeps the numeric timestamp.
* `fs` exceptions become explicit sum types; a thrown `Error` inside a
  trade operation becomes an `Except.error` carrying the error kind that
  the thrown message denotes.
-/

namespace DCT

/-- A `'stock'`-tagged open position record of `buyStock`. -/
structure StockPos where
  id : ℕ
  symbol : String
  shares : ℚ
  entryPrice : ℚ
  entryDate : ℕ
  costBasis : ℚ
deriving DecidableEq, Repr

/-- An `'option'`-tagged open position record of `buyOption`. -/
structure OptionPos where
  id : ℕ
  optionType : String
  symbol : String
  strike : ℚ
  expiration : String
  contracts : ℚ
  entryPremium : ℚ
  entryDate : ℕ
  costBasis : ℚ
deriving DecidableEq, Repr

/-- The tagged variant behind the JS records' `type` field
(`'stock'` / `'option'`). -/
inductive Position where
  | stock (s : StockPos)
  | option (o : OptionPos)
deriving DecidableEq, Repr

def Position.id : Position → ℕ
  | .stock s => s.id
  | .option o => o.id

def Position.symbol : Position → String
  | .stock s => s.symbol
  | .option o => o.symbol

def Position.costBasis : Position → ℚ
  | .stock s => s.costBasis
  | .option o => o.costBasis

/-- `position.type === 'stock'`. -/
def Position.isStock : Position → Bool
  | .stock _ => true
  | .option _ => false

/-- `position.type === 'option'`. -/
def Position.isOption : Position → Bool
  | .stock _ => false
  | .option _ => true

/-- `position.shares`; `undefined` (modelled as `0`) on an option record.
The source only reads this field after checking the `type` tag. -/
def Position.shares : Position → ℚ
  | .stock s => s.shares
  | .option _ => 0

/-- `position.contracts`; `undefined` (modelled as `0`) on a stock record.
The source only reads this field after checking the `type` tag. -/
def Position.contracts : Position → ℚ
  | .stock _ => 0
  | .option o => o.contracts

/-- The per-position quantity field: `shares` of a stock, `contracts` of an
option. -/
def Position.qty : Position → ℚ
  | .stock s => s.shares
  | .option o => o.contracts

/-- A closed-trade record: the spread of the closed position plus the exit
data (`exitPrice` for stocks, `exitPremium` for options — both are the one
extra numeric exit field, kept here as `exitAmount`). -/
structure ClosedTrade where
  pos : Position
  exitAmount : ℚ
  exitDate : ℕ
  proceeds : ℚ
  profitLoss : ℚ
  percentReturn : ℚ
deriving DecidableEq, Repr

/-- The persisted ledger (`portfolio.json`). -/
structure Portfolio where
  balance : ℚ
  openPositions : List Position
  closedTrades : List ClosedTrade
  totalPL : ℚ
  createdAt : ℕ
deriving DecidableEq, Repr

/-- `initializePortfolio`. -/
def initializePortfolio (now : ℕ) : Portfolio :=
  { balance := 1000000
    openPositions := []
    closedTrades := []
    totalPL := 0
    createdAt := now }

/-- The error kinds the thrown `Error` messages of the trade operations
denote.  `invalidInput` belongs to the spec's error taxonomy; it is listed
so that its absence from the code's behaviour can be stated. -/
inductive TradeError where
  | insufficientFunds
  | positionNotFound
  | wrongPositionType
  | invalidInput
deriving DecidableEq, Repr

/-- `buyStock(symbol, shares, price)`. -/
def buyStock (symbol : String) (shares price : ℚ) (now : ℕ) (p : Portfolio) :
    Except TradeError (Portfolio × Position) :=
  let cost := shares * price
  if cost > p.balance then
    .error .insufficientFunds
  else
    let position : Position := .stock
      { id := now, symbol := symbol, shares := shares, entryPrice := price
        entryDate := now, costBasis := cost }
    let p' : Portfolio :=
      { p with balance := p.balance - cost
               openPositions := p.openPositions ++ [position] }
    .ok (p', position)

/-- `p => p.type === 'stock' && p.symbol === symbol`, the predicate of
`sellStock`'s `findIndex`. -/
def stockMatch (symbol : String) (pos : Position) : Bool :=
  pos.isStock && pos.symbol == symbol

/-- `sellStock(symbol, currentPrice)`.  `findIndex` followed by
`splice(positionIndex, 1)` is modelled by `find?` (the element at the first
matching index) and `eraseP` (removal at that index). -/
def sellStock (symbol : String) (currentPrice : ℚ) (now : ℕ) (p : Portfolio) :
    Except TradeError (Portfolio × ClosedTrade) :=
  match p.openPositions.find? (stockMatch symbol) with
  | none => .error .positionNotFound
  | some position =>
    let proceeds := position.shares * currentPrice
    let profitLoss := proceeds - position.costBasis
    let percentReturn := profitLoss / position.costBasis * 100
    let closedTrade : ClosedTrade :=
      { pos := position, exitAmount := currentPrice, exitDate := now
        proceeds := proceeds, profitLoss := profitLoss
        percentReturn := percentReturn }
    let p' : Portfolio :=
      { p with balance := p.balance + proceeds
               totalPL := p.totalPL + profitLoss
               openPositions := p.openPositions.eraseP (stockMatch symbol)
               closedTrades := p.closedTrades ++ [closedTrade] }
    .ok (p', closedTrade)

/-- `buyOption(symbol, type, strike, expiration, premium, contracts)`. -/
def buyOption (symbol optType : String) (strike : ℚ) (expiration : String)
    (premium contracts : ℚ) (now : ℕ) (p : Portfolio) :
    Except TradeError (Portfolio × Position) :=
  let cost := premium * 100 * contracts
  if cost > p.balance then
    .error .insufficientFunds
  else
    let position : Position := .option
      { id := now, optionType := optType, symbol := symbol, strike := strike
        expiration := expiration, contracts := contracts
        entryPremium := premium, entryDate := now, costBasis := cost }
    let p' : Portfolio :=
      { p with balance := p.balance - cost
               openPositions := p.openPositions ++ [position] }
    .ok (p', position)

/-- `p => p.id === positionId`, the predicate of `closeOption`'s
`findIndex`. -/
def idMatch (positionId : ℕ) (pos : Position) : Bool :=
  pos.id == positionId

/-- `closeOption(positionId, exitPremium)`. -/
def closeOption (positionId : ℕ) (exitPremium : ℚ) (now : ℕ) (p : Portfolio) :
    Except TradeError (Portfolio × ClosedTrade) :=
  match p.openPositions.find? (idMatch positionId) with
  | none => .error .positionNotFound
  | some position =>
    if !position.isOption then
      .error .wrongPositionType
    else
      let proceeds := exitPremium * 100 * position.contracts
      let profitLoss := proceeds - position.costBasis
      let percentReturn := profitLoss / position.costBasis * 100
      let closedTrade : ClosedTrade :=
        { pos := position, exitAmount := exitPremium, exitDate := now
          proceeds := proceeds, profitLoss := profitLoss
          percentReturn := percentReturn }
      let p' : Portfolio :=
        { p with balance := p.balance + proceeds
                 totalPL := p.totalPL + profitLoss
                 openPositions := p.openPositions.eraseP (idMatch positionId)
                 closedTrades := p.closedTrades ++ [closedTrade] }
      .ok (p', closedTrade)

/-- `resetPortfolio`. -/
def resetPortfolio (now : ℕ) : Portfolio :=
  initializePortfolio now

/-! ## The persistence read (`loadPortfolio`) -/

/-- The outcome of `fs.readFile(PORTFOLIO_FILE)` followed by `JSON.parse`:
the record parses to a portfolio, the record is readable but does not parse
(`JSON.parse` throws), the file is absent (`ENOENT`), or the read fails
with any other I/O error. -/
inductive ReadOutcome where
  | ok (record : Portfolio)
  | corrupt
  | absent
  | ioFailure
deriving DecidableEq, Repr

/-- `loadPortfolio`.  The source wraps read-and-parse in one
`try ... catch (error)` whose catch — commented `// If file doesn't exist,
create new portfolio` — initializes a fresh portfolio and persists it.  The
`Bool` records whether that catch branch ran (a fresh ledger was written
over the store). -/
def loadPortfolio (r : ReadOutcome) (now : ℕ) : Portfolio × Bool :=
  match r with
  | .ok record => (record, false)
  | _ => (initializePortfolio now, true)

/-- A persistence failure, the spec's `StoreIO` error kind. -/
inductive LoadError where
  | storeIoFailure
deriving DecidableEq, Repr

/-- Modelled from the spec: the load behaviour §4.1/§7 require —
`load()` recovers by implicit initialization only in the record-absent
("first run") case, and any other read failure (unreadable record, corrupt
record) is a fatal `StoreIO` error for that call.  Stated here for
comparison with `loadPortfolio`, the source's behaviour. -/
def loadSpec (r : ReadOutcome) (now : ℕ) : Except LoadError Portfolio :=
  match r with
  | .ok record => .ok record
  | .absent => .ok (initializePortfolio now)
  | .corrupt => .error .storeIoFailure
  | .ioFailure => .error .storeIoFailure

/-! ## Sequences of trade operations

One persisted-ledger step per exported operation.  A trade operation that
throws does so before `savePortfolio`, so the persisted ledger after a
failed call is the ledger it loaded. -/

/-- One call of an exported trade operation, with the clock value at which
it runs. -/
inductive Op where
  | openStock (symbol : String) (shares price : ℚ) (now : ℕ)
  | closeStock (symbol : String) (currentPrice : ℚ) (now : ℕ)
  | openOption (symbol optType : String) (strike : ℚ) (expiration : String)
      (premium contracts : ℚ) (now : ℕ)
  | closeOption (positionId : ℕ) (exitPremium : ℚ) (now : ℕ)
  | reset (now : ℕ)
deriving DecidableEq, Repr

/-- The result an operation returns to its caller: the new persisted
ledger, or the thrown error. -/
def runOp (op : Op) (p : Portfolio) : Except TradeError Portfolio :=
  match op with
  | .openStock sym q pr n => (buyStock sym q pr n p).map Prod.fst
  | .closeStock sym cp n => (sellStock sym cp n p).map Prod.fst
  | .openOption sym t k e pm c n => (buyOption sym t k e pm c n p).map Prod.fst
  | .closeOption pid ep n => (closeOption pid ep n p).map Prod.fst
  | .reset n => .ok (resetPortfolio n)

/-- The persisted ledger after one call: on success the saved ledger, on a
throw the ledger as loaded (`savePortfolio` never ran). -/
def applyOp (op : Op) (p : Portfolio) : Portfolio :=
  match runOp op p with
  | .ok p' => p'
  | .error _ => p

/-- The persisted ledger after a sequence of (non-overlapping) calls. -/
def applyOps (ops : List Op) (p : Portfolio) : Portfolio :=
  ops.foldl (fun s op => applyOp op s) p

/-! ## Valuation (`getPortfolio`) -/

/-- One element of the `openPositionsWithValues` array: the position spread
together with the valuation fields.  `quote` is the looked-up price
(`currentPrice` on a stock, `underlyingPrice` on an option); `none` when
`getCurrentPrice` threw and the catch branch ran. -/
structure ValuedPosition where
  pos : Position
  quote : Option ℚ
  currentValue : ℚ
  unrealizedPL : ℚ
  unrealizedPercent : ℚ
deriving DecidableEq, Repr

/-- The body of `getPortfolio`'s `map` over `portfolio.openPositions`:
`getCurrentPrice` failure falls back to cost basis and zero P/L; options
are always carried at cost basis. -/
def valuatePosition (lookup : String → Option ℚ) (pos : Position) :
    ValuedPosition :=
  match lookup pos.symbol with
  | some currentPrice =>
    match pos with
    | .stock s =>
      let currentValue := s.shares * currentPrice
      let unrealizedPL := currentValue - s.costBasis
      { pos := pos, quote := some currentPrice, currentValue := currentValue
        unrealizedPL := unrealizedPL
        unrealizedPercent := unrealizedPL / s.costBasis * 100 }
    | .option o =>
      { pos := pos, quote := some currentPrice, currentValue := o.costBasis
        unrealizedPL := 0, unrealizedPercent := 0 }
  | none =>
    { pos := pos, quote := none, currentValue := pos.costBasis
      unrealizedPL := 0, unrealizedPercent := 0 }

/-- The view `getPortfolio` returns. -/
structure PortfolioView where
  balance : ℚ
  openPositions : List ValuedPosition
  closedTrades : List ClosedTrade
  totalPL : ℚ
  totalUnrealizedPL : ℚ
  totalPortfolioValue : ℚ
  totalReturn : ℚ
  totalReturnPercent : ℚ
deriving DecidableEq, Repr

/-- `getPortfolio(getCurrentPrice)`; the aggregates keep the source's
`reduce((sum, pos) => sum + field, 0)` shape. -/
def getPortfolio (lookup : String → Option ℚ) (p : Portfolio) :
    PortfolioView :=
  let vps := p.openPositions.map (valuatePosition lookup)
  let totalPortfolioValue :=
    p.balance + vps.foldl (fun sum pos => sum + pos.currentValue) 0
  let totalUnrealizedPL := vps.foldl (fun sum pos => sum + pos.unrealizedPL) 0
  { balance := p.balance
    openPositions := vps
    closedTrades := p.closedTrades
    totalPL := p.totalPL
    totalUnrealizedPL := totalUnrealizedPL
    totalPortfolioValue := totalPortfolioValue
    totalReturn := totalPortfolioValue - 1000000
    totalReturnPercent := (totalPortfolioValue - 1000000) / 1000000 * 100 }

/-! ## Interleaved execution of two concurrent `buyStock` calls

Each `buyStock` call is a Node async function: it runs atomically between
its `await`s.  Its effect on the shared persisted state (`portfolio.json`)
factors into two atomic steps — the load (`await loadPortfolio()`), which
copies the shared state into the call's local `portfolio` variable, and
the completion, which validates and mutates the local copy and, on
success, writes it whole over the shared state (`await savePortfolio`).
Nothing in the source orders these steps across calls. -/

/-- The arguments of one `buyStock` call. -/
structure BuyCall where
  symbol : String
  shares : ℚ
  price : ℚ
  now : ℕ
deriving DecidableEq, Repr

/-- The portion of `buyStock` between its two `await`s, run on the call's
loaded copy: `none` when it throws `Insufficient funds`, otherwise the
portfolio the call then saves. -/
def buyLocal (c : BuyCall) (p : Portfolio) : Option Portfolio :=
  match buyStock c.symbol c.shares c.price c.now p with
  | .ok (p', _) => some p'
  | .error _ => none

/-- The shared persisted state plus each call's private state: its loaded
copy (`none` before its load step) and its outcome (`none` while still
running, `some true` returned success, `some false` threw). -/
structure SysState where
  shared : Portfolio
  localA : Option Portfolio
  localB : Option Portfolio
  resA : Option Bool
  resB : Option Bool
deriving DecidableEq, Repr

/-- The atomic steps of two concurrent calls A and B. -/
inductive CStep where
  | loadA
  | finishA
  | loadB
  | finishB
deriving DecidableEq, Repr

/-- One atomic step of the interleaved system. -/
def stepSys (a b : BuyCall) (s : SysState) : CStep → SysState
  | .loadA => { s with localA := some s.shared }
  | .loadB => { s with localB := some s.shared }
  | .finishA =>
    match s.localA with
    | none => s
    | some p =>
      match buyLocal a p with
      | none => { s with resA := some false }
      | some p' => { s with shared := p', resA := some true }
  | .finishB =>
    match s.localB with
    | none => s
    | some p =>
      match buyLocal b p with
      | none => { s with resB := some false }
      | some p' => { s with shared := p', resB := some true }

/-- Run a schedule (an interleaving of the two calls' steps). -/
def runSched (a b : BuyCall) (steps : List CStep) (s : SysState) : SysState :=
  steps.foldl (stepSys a b) s

/-- The system before either call has run a step. -/
def initSys (p : Portfolio) : SysState :=
  { shared := p, localA := none, localB := none, resA := none, resB := none }

/-! ## Predicates for the solvency and unique-identifier invariants -/

/-- All numeric arguments of the operation are nonnegative. -/
def Op.nonnegArgs : Op → Prop
  | .openStock _ q pr _ => 0 ≤ q ∧ 0 ≤ pr
  | .closeStock _ cp _ => 0 ≤ cp
  | .openOption _ _ k _ pm c _ => 0 ≤ k ∧ 0 ≤ pm ∧ 0 ≤ c
  | .closeOption _ ep _ => 0 ≤ ep
  | .reset _ => True

/-- The inductive solvency invariant: nonnegative balance, and every open
position holds a nonnegative quantity. -/
def SolventInv (p : Portfolio) : Prop :=
  0 ≤ p.balance ∧ ∀ q ∈ p.openPositions, 0 ≤ q.qty

/-- The clock value an open operation stamps into its new position's id
(`Date.now()`); `none` for operations that create no position. -/
def Op.openTime? : Op → Option ℕ
  | .openStock _ _ _ n => some n
  | .openOption _ _ _ _ _ _ n => some n
  | _ => none

/-- The id-creating clock values of a sequence of operations. -/
def openTimes (ops : List Op) : List ℕ :=
  ops.filterMap Op.openTime?

/-- The inductive identifier invariant: the open positions' ids are
pairwise distinct and all drawn from the set `T` of clock values consumed
so far. -/
def IdInv (p : Portfolio) (T : List ℕ) : Prop :=
  (p.openPositions.map Position.id).Nodup ∧
    ∀ pos ∈ p.openPositions, pos.id ∈ T

/-! ## Helper lemmas -/

theorem stockMatch_true_iff (sym : String) (q : Position) :
    stockMatch sym q = true ↔ q.isStock = true ∧ q.symbol = sym := by
  simp [stockMatch]

theorem stockMatch_false_iff (sym : String) (q : Position) :
    stockMatch sym q = false ↔ ¬(q.isStock = true ∧ q.symbol = sym) := by
  rw [← stockMatch_true_iff]
  simp

theorem idMatch_true_iff (pid : ℕ) (q : Position) :
    idMatch pid q = true ↔ q.id = pid := by
  simp [idMatch]

theorem qty_of_isStock {q : Position} (h : q.isStock = true) :
    q.qty = q.shares := by
  cases q <;> simp_all [Position.isStock, Position.qty, Position.shares]

theorem qty_of_isOption {q : Position} (h : q.isOption = true) :
    q.qty = q.contracts := by
  cases q <;> simp_all [Position.isOption, Position.qty, Position.contracts]

theorem not_isOption_iff_isStock (q : Position) :
    (¬q.isOption = true) ↔ q.isStock = true := by
  cases q <;> simp [Position.isOption, Position.isStock]

/-- `findIndex` followed by `splice(index, 1)`: when `find?` hits, the list
splits as a match-free front, the found element, and a tail, and `eraseP`
removes exactly that element. -/
theorem find?_eraseP_split (q : α → Bool) (l : List α) (a : α)
    (h : l.find? q = some a) :
    ∃ l₁ l₂, l = l₁ ++ a :: l₂ ∧ (∀ x ∈ l₁, q x = false) ∧
      l.eraseP q = l₁ ++ l₂ := by
  induction l with
  | nil => simp [List.find?] at h
  | cons b t ih =>
    by_cases hb : q b = true
    · rw [List.find?_cons_of_pos _ hb] at h
      obtain rfl : b = a := by injection h
      exact ⟨[], t, by simp, by simp, List.eraseP_cons_of_pos hb⟩
    · rw [List.find?_cons_of_neg _ hb] at h
      obtain ⟨l₁, l₂, rfl, hl₁, he⟩ := ih h
      refine ⟨b :: l₁, l₂, rfl, ?_, ?_⟩
      · intro x hx
        rcases List.mem_cons.mp hx with rfl | hx
        · exact Bool.not_eq_true _ ▸ hb
        · exact hl₁ x hx
      · rw [List.eraseP_cons_of_neg hb, he]
        simp

theorem applyOps_cons (op : Op) (ops : List Op) (p : Portfolio) :
    applyOps (op :: ops) p = applyOps ops (applyOp op p) := rfl

theorem foldl_add_eq_sum {α : Type} (f : α → ℚ) (l : List α) (init : ℚ) :
    l.foldl (fun sum x => sum + f x) init = init + (l.map f).sum := by
  induction l generalizing init with
  | nil => simp
  | cons a t ih => simp [ih, add_assoc]

/-! ## Claims -/

/-- C10.  A successful `buyStock` or `buyOption` changes only the balance
(decremented by the cost) and `openPositions` (exactly one new position
appended at the end); `closedTrades`, `totalPL` (realized P/L), `createdAt`
and every previously existing open position — fields and order — are
unchanged. -/
theorem successful_open_frame (p : Portfolio) :
    (∀ sym q pr n p' pos, buyStock sym q pr n p = .ok (p', pos) →
      p'.openPositions = p.openPositions ++ [pos] ∧
      p'.balance = p.balance - q * pr ∧
      p'.closedTrades = p.closedTrades ∧
      p'.totalPL = p.totalPL ∧
      p'.createdAt = p.createdAt) ∧
    (∀ sym t k e pm c n p' pos, buyOption sym t k e pm c n p = .ok (p', pos) →
      p'.openPositions = p.openPositions ++ [pos] ∧
      p'.balance = p.balance - pm * 100 * c ∧
      p'.closedTrades = p.closedTrades ∧
      p'.totalPL = p.totalPL ∧
      p'.createdAt = p.createdAt) := by
  constructor
  · intro sym q pr n p' pos h
    rw [buyStock] at h
    split at h
    · exact absurd h (by simp)
    · simp only [Except.ok.injEq, Prod.mk.injEq] at h
      obtain ⟨rfl, rfl⟩ := h
      exact ⟨rfl, rfl, rfl, rfl, rfl⟩
  · intro sym t k e pm c n p' pos h
    rw [buyOption] at h
    split at h
    · exact absurd h (by simp)
    · simp only [Except.ok.injEq, Prod.mk.injEq] at h
      obtain ⟨rfl, rfl⟩ := h
      exact ⟨rfl, rfl, rfl, rfl, rfl⟩

/-- C3, counterexample.  `openStock` with `quantity = -10 ≤ 0` does not
fail with `InvalidInput`: it succeeds, appends a position with negative
shares and negative cost basis, and *increases* the balance to
1,000,050. -/
theorem openStock_accepts_nonpositive_quantity :
    buyStock "A" (-10) 5 0 (initializePortfolio 0) =
      .ok ({ balance := 1000050
             openPositions := [.stock ⟨0, "A", -10, 5, 0, -50⟩]
             closedTrades := []
             totalPL := 0
             createdAt := 0 },
           .stock ⟨0, "A", -10, 5, 0, -50⟩) := by
  norm_num [buyStock, initializePortfolio]

/-- C3 (amended).  `openStock` and `openOption` perform no input
validation at all: neither ever fails with `InvalidInput` (or with
anything but `InsufficientFunds`); each call succeeds exactly when its
cost (`quantity*price`, resp. `premium*100*contracts`) is at most the
balance, whatever the signs of the arguments. -/
theorem open_ops_skip_input_validation (sym t e : String) (q pr k pm c : ℚ)
    (n : ℕ) (p : Portfolio) :
    (buyStock sym q pr n p = .error .insufficientFunds ↔ q * pr > p.balance) ∧
    (∀ er, buyStock sym q pr n p = .error er → er = .insufficientFunds) ∧
    ((buyStock sym q pr n p).isOk = true ↔ q * pr ≤ p.balance) ∧
    (buyOption sym t k e pm c n p = .error .insufficientFunds ↔
      pm * 100 * c > p.balance) ∧
    (∀ er, buyOption sym t k e pm c n p = .error er →
      er = .insufficientFunds) ∧
    ((buyOption sym t k e pm c n p).isOk = true ↔
      pm * 100 * c ≤ p.balance) := by
  by_cases h1 : q * pr > p.balance <;> by_cases h2 : pm * 100 * c > p.balance <;>
    simp [buyStock, buyOption, h1, h2, Except.isOk, Except.toBool, le_of_not_lt,
      not_le.mpr, lt_iff_not_ge, le_iff_lt_or_eq]

/-- C4.  Failure atomicity: when a trade operation throws, the persisted
ledger is the ledger the call loaded — every throw in the source happens
before `savePortfolio`, so nothing is partially applied. -/
theorem failed_op_preserves_ledger (op : Op) (p : Portfolio) (e : TradeError)
    (h : runOp op p = .error e) : applyOp op p = p := by
  unfold applyOp
  rw [h]

/-- C4, witness: `closeStock("ZZZZ", …)` against the fresh ledger fails
with `PositionNotFound` and persists the ledger unchanged. -/
theorem failed_op_preserves_ledger_case :
    runOp (Op.closeStock "ZZZZ" 100 3) (initializePortfolio 0) =
      .error .positionNotFound ∧
    applyOp (Op.closeStock "ZZZZ" 100 3) (initializePortfolio 0) =
      initializePortfolio 0 :=
  ⟨rfl, failed_op_preserves_ledger _ _ .positionNotFound rfl⟩

/-- C7.  The catch-all in `loadPortfolio` reinitializes (and persists) a
fresh ledger on *every* read failure — a corrupt record and a non-`ENOENT`
I/O failure included — where the spec's load (`loadSpec`) recovers by
initialization only in the record-absent case and otherwise fails with the
`StoreIO` error. -/
theorem load_initializes_on_any_read_failure :
    loadPortfolio .corrupt 7 = (initializePortfolio 7, true) ∧
    loadPortfolio .ioFailure 7 = (initializePortfolio 7, true) ∧
    loadPortfolio .absent 7 = (initializePortfolio 7, true) ∧
    loadSpec .corrupt 7 = .error .storeIoFailure ∧
    loadSpec .ioFailure 7 = .error .storeIoFailure ∧
    loadSpec .absent 7 = .ok (initializePortfolio 7) :=
  ⟨rfl, rfl, rfl, rfl, rfl, rfl⟩

/-- C2.  The unsynchronized read-modify-write of `buyStock` is not
serializable: under the schedule `loadA, loadB, finishA, finishB`, two
concurrent `openStock` calls costing 600,000 each against the fresh
1,000,000 balance both pass the solvency check on the same stale balance
and both report success — while under either serial order the second call
fails with `InsufficientFunds`.  The interleaving also loses call A's
position: the final store holds one position, bought for 1,200,000 in
total, against a balance of 400,000. -/
theorem interleaved_opens_double_spend :
    ((runSched ⟨"X", 1, 600000, 1⟩ ⟨"Y", 1, 600000, 2⟩
        [CStep.loadA, CStep.loadB, CStep.finishA, CStep.finishB]
        (initSys (initializePortfolio 0))).resA = some true ∧
      (runSched ⟨"X", 1, 600000, 1⟩ ⟨"Y", 1, 600000, 2⟩
        [CStep.loadA, CStep.loadB, CStep.finishA, CStep.finishB]
        (initSys (initializePortfolio 0))).resB = some true ∧
      (runSched ⟨"X", 1, 600000, 1⟩ ⟨"Y", 1, 600000, 2⟩
        [CStep.loadA, CStep.loadB, CStep.finishA, CStep.finishB]
        (initSys (initializePortfolio 0))).shared.openPositions.length = 1 ∧
      (runSched ⟨"X", 1, 600000, 1⟩ ⟨"Y", 1, 600000, 2⟩
        [CStep.loadA, CStep.loadB, CStep.finishA, CStep.finishB]
        (initSys (initializePortfolio 0))).shared.balance = 400000) ∧
    (runSched ⟨"X", 1, 600000, 1⟩ ⟨"Y", 1, 600000, 2⟩
      [CStep.loadA, CStep.finishA, CStep.loadB, CStep.finishB]
      (initSys (initializePortfolio 0))).resB = some false ∧
    (runSched ⟨"X", 1, 600000, 1⟩ ⟨"Y", 1, 600000, 2⟩
      [CStep.loadB, CStep.finishB, CStep.loadA, CStep.finishA]
      (initSys (initializePortfolio 0))).resA = some false := by
  norm_num [runSched, stepSys, buyLocal, buyStock, initSys, initializePortfolio]

/-- C5.  `closeStock` fails with `PositionNotFound` exactly when no open
stock position carries the symbol; on success the first (in insertion
order) matching stock position is removed — one removal, every other
position kept in order — one `ClosedTrade` with the stated proceeds, P/L
and percent-return formulas is appended, and the ledger gains
`balance += proceeds` and `totalRealizedPL += profitLoss`. -/
theorem closeStock_postcondition (sym : String) (cp : ℚ) (n : ℕ)
    (p : Portfolio) :
    (sellStock sym cp n p = .error .positionNotFound ↔
      ∀ q ∈ p.openPositions, ¬(q.isStock = true ∧ q.symbol = sym)) ∧
    (∀ p' tr, sellStock sym cp n p = .ok (p', tr) →
      ∃ l₁ pos l₂,
        p.openPositions = l₁ ++ pos :: l₂ ∧
        (∀ q ∈ l₁, ¬(q.isStock = true ∧ q.symbol = sym)) ∧
        pos.isStock = true ∧ pos.symbol = sym ∧
        tr.pos = pos ∧
        p'.openPositions = l₁ ++ l₂ ∧
        tr.proceeds = pos.shares * cp ∧
        tr.profitLoss = tr.proceeds - pos.costBasis ∧
        tr.percentReturn = tr.profitLoss / pos.costBasis * 100 ∧
        p'.closedTrades = p.closedTrades ++ [tr] ∧
        p'.balance = p.balance + tr.proceeds ∧
        p'.totalPL = p.totalPL + tr.profitLoss ∧
        p'.createdAt = p.createdAt) := by
  constructor
  · rcases hfind : p.openPositions.find? (stockMatch sym) with _ | pos
    · have hall : ∀ q ∈ p.openPositions, ¬(q.isStock = true ∧ q.symbol = sym) :=
        fun q hq =>
          (stockMatch_true_iff sym q).not.mp (List.find?_eq_none.mp hfind q hq)
      simp only [sellStock, hfind, true_iff]
      exact hall
    · have hmem := List.mem_of_find?_eq_some hfind
      have hmatch := (stockMatch_true_iff sym pos).mp (List.find?_some hfind)
      simp only [sellStock, hfind]
      constructor
      · intro h
        exact absurd h (by simp)
      · intro h
        exact absurd hmatch (h pos hmem)
  · intro p' tr h
    rcases hfind : p.openPositions.find? (stockMatch sym) with _ | pos
    · rw [sellStock, hfind] at h
      exact absurd h (by simp)
    · rw [sellStock, hfind] at h
      simp only [Except.ok.injEq, Prod.mk.injEq] at h
      obtain ⟨rfl, rfl⟩ := h
      have hmatch := (stockMatch_true_iff sym pos).mp (List.find?_some hfind)
      obtain ⟨l₁, l₂, hsplit, hfree, herase⟩ :=
        find?_eraseP_split (stockMatch sym) p.openPositions pos hfind
      exact ⟨l₁, pos, l₂, hsplit,
        fun q hq => (stockMatch_false_iff sym q).mp (hfree q hq),
        hmatch.1, hmatch.2, rfl, herase, rfl, rfl, rfl, rfl, rfl, rfl, rfl⟩

/-- C6.  `closeOption` fails with `PositionNotFound` exactly when no open
position carries the id; under the unique-identifier invariant it fails
with `WrongPositionType` exactly when the position with that id is a
stock; otherwise it succeeds, removing that one position and appending one
`ClosedTrade` with `proceeds = exitPremium*100*contracts`, the stated P/L
formulas, `balance += proceeds` and `totalRealizedPL += profitLoss`. -/
theorem closeOption_semantics (pid : ℕ) (ep : ℚ) (n : ℕ) (p : Portfolio)
    (hu : (p.openPositions.map Position.id).Nodup) :
    (closeOption pid ep n p = .error .positionNotFound ↔
      ∀ q ∈ p.openPositions, q.id ≠ pid) ∧
    (closeOption pid ep n p = .error .wrongPositionType ↔
      ∃ q ∈ p.openPositions, q.id = pid ∧ q.isStock = true) ∧
    (∀ p' tr, closeOption pid ep n p = .ok (p', tr) →
      ∃ l₁ pos l₂,
        p.openPositions = l₁ ++ pos :: l₂ ∧
        pos.id = pid ∧ pos.isOption = true ∧
        tr.pos = pos ∧
        p'.openPositions = l₁ ++ l₂ ∧
        tr.proceeds = ep * 100 * pos.contracts ∧
        tr.profitLoss = tr.proceeds - pos.costBasis ∧
        tr.percentReturn = tr.profitLoss / pos.costBasis * 100 ∧
        p'.closedTrades = p.closedTrades ++ [tr] ∧
        p'.balance = p.balance + tr.proceeds ∧
        p'.totalPL = p.totalPL + tr.profitLoss ∧
        p'.createdAt = p.createdAt) := by
  refine ⟨?_, ?_, ?_⟩
  · rcases hfind : p.openPositions.find? (idMatch pid) with _ | pos
    · have hall : ∀ q ∈ p.openPositions, q.id ≠ pid := fun q hq =>
        (idMatch_true_iff pid q).not.mp (List.find?_eq_none.mp hfind q hq)
      simp only [closeOption, hfind, true_iff]
      exact hall
    · have hmem := List.mem_of_find?_eq_some hfind
      have hid := (idMatch_true_iff pid pos).mp (List.find?_some hfind)
      simp only [closeOption, hfind]
      constructor
      · intro h
        rcases pos with s | o <;> simp [Position.isOption] at h
      · intro h
        exact absurd hid (h pos hmem)
  · rcases hfind : p.openPositions.find? (idMatch pid) with _ | pos
    · simp only [closeOption, hfind]
      constructor
      · intro h
        exact absurd h (by simp)
      · rintro ⟨q, hq, hqid, _⟩
        exact absurd ((idMatch_true_iff pid q).mpr hqid)
          (List.find?_eq_none.mp hfind q hq)
    · have hmem := List.mem_of_find?_eq_some hfind
      have hid := (idMatch_true_iff pid pos).mp (List.find?_some hfind)
      simp only [closeOption, hfind]
      rcases pos with s | o
    -- the found position is a stock: the call fails `WrongPositionType`
      · simp only [Position.isOption, Bool.not_false, if_true, true_iff]
        exact ⟨.stock s, hmem, hid, rfl⟩
    -- the found position is an option: the call succeeds
      · simp only [Position.isOption, Bool.not_true, Bool.false_eq_true,
          if_false]
        constructor
        · intro h
          exact absurd h (by simp)
        · rintro ⟨q, hq, hqid, hqstock⟩
          have hqeq : q = .option o := List.inj_on_of_nodup_map hu hq hmem
            (by rw [hqid, hid])
          subst hqeq
          simp [Position.isStock] at hqstock
  · intro p' tr h
    rcases hfind : p.openPositions.find? (idMatch pid) with _ | pos
    · rw [closeOption, hfind] at h
      exact absurd h (by simp)
    · rw [closeOption, hfind] at h
      have hid := (idMatch_true_iff pid pos).mp (List.find?_some hfind)
      rcases pos with s | o
      · simp only [Position.isOption, Bool.not_false, if_true] at h
        exact absurd h (by simp)
      · simp only [Position.isOption, Bool.not_true, Bool.false_eq_true,
          if_false, Except.ok.injEq, Prod.mk.injEq] at h
        obtain ⟨rfl, rfl⟩ := h
        obtain ⟨l₁, l₂, hsplit, _, herase⟩ :=
          find?_eraseP_split (idMatch pid) p.openPositions (.option o) hfind
        exact ⟨l₁, .option o, l₂, hsplit, hid, rfl, rfl, herase,
          rfl, rfl, rfl, rfl, rfl, rfl, rfl⟩

/-- C6, witness: against a ledger holding one option position with id 5,
`closeOption` with the absent id 7 fails with `PositionNotFound`. -/
theorem closeOption_semantics_case :
    closeOption 7 8 9
        ⟨0, [.option ⟨5, "call", "TSLA", 250, "2026-01-01", 10, 5, 0, 5000⟩],
          [], 0, 0⟩ = .error .positionNotFound ↔
      ∀ q ∈ [Position.option
          ⟨5, "call", "TSLA", 250, "2026-01-01", 10, 5, 0, 5000⟩],
        q.id ≠ 7 :=
  (closeOption_semantics 7 8 9 _ (by decide)).1

/-- One step preserves the solvency invariant when the operation's numeric
arguments are nonnegative. -/
theorem applyOp_solvent {op : Op} {p : Portfolio} (hp : SolventInv p)
    (h : op.nonnegArgs) : SolventInv (applyOp op p) := by
  obtain ⟨hbal, hqty⟩ := hp
  cases op with
  | openStock sym q pr n =>
    obtain ⟨hq, hpr⟩ := h
    by_cases hc : q * pr > p.balance
    · simp only [applyOp, runOp, buyStock, if_pos hc, Except.map]
      exact ⟨hbal, hqty⟩
    · simp only [applyOp, runOp, buyStock, if_neg hc, Except.map]
      constructor
      · have : q * pr ≤ p.balance := not_lt.mp hc
        show (0:ℚ) ≤ p.balance - q * pr
        linarith
      · intro x hx
        rcases List.mem_append.mp hx with hx | hx
        · exact hqty x hx
        · simp only [List.mem_singleton] at hx
          subst hx
          simpa [Position.qty] using hq
  | closeStock sym cp n =>
    simp only [applyOp, runOp, sellStock]
    rcases hfind : p.openPositions.find? (stockMatch sym) with _ | pos
    · simp only [Except.map]
      exact ⟨hbal, hqty⟩
    · simp only [Except.map]
      have hmem := List.mem_of_find?_eq_some hfind
      have hmatch := (stockMatch_true_iff sym pos).mp (List.find?_some hfind)
      have hsh : 0 ≤ pos.shares := qty_of_isStock hmatch.1 ▸ hqty pos hmem
      constructor
      · have : 0 ≤ pos.shares * cp := mul_nonneg hsh h
        show (0:ℚ) ≤ p.balance + pos.shares * cp
        linarith
      · intro x hx
        exact hqty x ((List.eraseP_sublist _).subset hx)
  | openOption sym t k e pm c n =>
    obtain ⟨hk, hpm, hc0⟩ := h
    by_cases hc : pm * 100 * c > p.balance
    · simp only [applyOp, runOp, buyOption, if_pos hc, Except.map]
      exact ⟨hbal, hqty⟩
    · simp only [applyOp, runOp, buyOption, if_neg hc, Except.map]
      constructor
      · have : pm * 100 * c ≤ p.balance := not_lt.mp hc
        show (0:ℚ) ≤ p.balance - pm * 100 * c
        linarith
      · intro x hx
        rcases List.mem_append.mp hx with hx | hx
        · exact hqty x hx
        · simp only [List.mem_singleton] at hx
          subst hx
          simpa [Position.qty] using hc0
  | closeOption pid ep n =>
    simp only [applyOp, runOp, closeOption]
    rcases hfind : p.openPositions.find? (idMatch pid) with _ | pos
    · simp only [Except.map]
      exact ⟨hbal, hqty⟩
    · have hmem := List.mem_of_find?_eq_some hfind
      rcases pos with s | o
      · simp only [Position.isOption, Bool.not_false, if_true, Except.map]
        exact ⟨hbal, hqty⟩
      · simp only [Position.isOption, Bool.not_true, Bool.false_eq_true,
          if_false, Except.map]
        have hcon : 0 ≤ (Position.option o).contracts := by
          simpa [Position.qty, Position.contracts] using
            hqty (Position.option o) hmem
        constructor
        · have : 0 ≤ ep * 100 * (Position.option o).contracts :=
            mul_nonneg (mul_nonneg h (by norm_num)) hcon
          show (0:ℚ) ≤ p.balance + ep * 100 * (Position.option o).contracts
          linarith
        · intro x hx
          exact hqty x ((List.eraseP_sublist _).subset hx)
  | reset n =>
    simp [applyOp, runOp, resetPortfolio, initializePortfolio, SolventInv]

/-- The solvency invariant holds after any sequence of operations with
nonnegative numeric arguments. -/
theorem applyOps_solvent (ops : List Op) (p : Portfolio) (hp : SolventInv p)
    (h : ∀ op ∈ ops, op.nonnegArgs) : SolventInv (applyOps ops p) := by
  induction ops generalizing p with
  | nil => exact hp
  | cons op t ih =>
    rw [applyOps_cons]
    exact ih _ (applyOp_solvent hp (h op (by simp)))
      (fun o ho => h o (by simp [ho]))

/-- C1, counterexample.  The claim places no restriction on numeric
arguments, but `closeStock` credits `shares * currentPrice` unchecked: open
one share of "A" at price 1, then close it at price −2,000,000 — the
persisted balance becomes −1,000,001 < 0. -/
theorem negative_balance_via_negative_close :
    (applyOps [Op.openStock "A" 1 1 0, Op.closeStock "A" (-2000000) 1]
      (initializePortfolio 0)).balance < 0 := by
  norm_num [applyOps, applyOp, runOp, sellStock, buyStock, stockMatch,
    initializePortfolio, Position.isStock, Position.symbol, Position.shares,
    Position.costBasis, List.find?, List.eraseP, Except.map]

/-- C1 (amended).  Solvency holds for every sequence of operations from
the fresh ledger whose numeric arguments are all nonnegative (and since
the hypothesis is closed under prefixes, the balance is nonnegative after
every operation of such a sequence); with unrestricted arguments it fails,
see the counterexample. -/
theorem solvency_of_nonneg_ops (ops : List Op) (c : ℕ)
    (h : ∀ op ∈ ops, op.nonnegArgs) :
    0 ≤ (applyOps ops (initializePortfolio c)).balance :=
  (applyOps_solvent ops _
    ⟨by norm_num [initializePortfolio], by simp [initializePortfolio]⟩ h).1

/-- C1, witness: scenario A of the spec (buy 100 AAPL at 150, close at
160) keeps the balance nonnegative. -/
theorem solvency_of_nonneg_ops_case :
    0 ≤ (applyOps [Op.openStock "AAPL" 100 150 0, Op.closeStock "AAPL" 160 1]
      (initializePortfolio 0)).balance :=
  solvency_of_nonneg_ops _ 0
    (by norm_num [List.forall_mem_cons, Op.nonnegArgs])

/-- One step preserves the identifier invariant when the operation's clock
value (if it creates a position) is fresh. -/
theorem applyOp_idInv {op : Op} {s : Portfolio} {T : List ℕ}
    (h : IdInv s T) (hn : ∀ m, op.openTime? = some m → m ∉ T) :
    IdInv (applyOp op s) (T ++ (Op.openTime? op).toList) := by
  obtain ⟨hnd, hmem⟩ := h
  cases op with
  | openStock sym q pr n =>
    have hnT : n ∉ T := hn n rfl
    simp only [Op.openTime?, Option.toList]
    by_cases hc : q * pr > s.balance
    · simp only [applyOp, runOp, buyStock, if_pos hc, Except.map]
      exact ⟨hnd, fun pos hp => List.mem_append_left _ (hmem pos hp)⟩
    · simp only [applyOp, runOp, buyStock, if_neg hc, Except.map]
      constructor
      · rw [List.map_append]
        simp only [List.map_cons, List.map_nil, Position.id]
        rw [List.nodup_append]
        refine ⟨hnd, List.nodup_singleton _, ?_⟩
        intro a ha hb
        simp only [List.mem_singleton] at hb
        subst hb
        obtain ⟨pos, hpmem, hpid⟩ := List.mem_map.mp ha
        exact hnT (hpid ▸ hmem pos hpmem)
      · intro pos hp
        rcases List.mem_append.mp hp with h1 | h1
        · exact List.mem_append_left _ (hmem pos h1)
        · simp only [List.mem_singleton] at h1
          subst h1
          simp [Position.id]
  | openOption sym t k e pm c n =>
    have hnT : n ∉ T := hn n rfl
    simp only [Op.openTime?, Option.toList]
    by_cases hc : pm * 100 * c > s.balance
    · simp only [applyOp, runOp, buyOption, if_pos hc, Except.map]
      exact ⟨hnd, fun pos hp => List.mem_append_left _ (hmem pos hp)⟩
    · simp only [applyOp, runOp, buyOption, if_neg hc, Except.map]
      constructor
      · rw [List.map_append]
        simp only [List.map_cons, List.map_nil, Position.id]
        rw [List.nodup_append]
        refine ⟨hnd, List.nodup_singleton _, ?_⟩
        intro a ha hb
        simp only [List.mem_singleton] at hb
        subst hb
        obtain ⟨pos, hpmem, hpid⟩ := List.mem_map.mp ha
        exact hnT (hpid ▸ hmem pos hpmem)
      · intro pos hp
        rcases List.mem_append.mp hp with h1 | h1
        · exact List.mem_append_left _ (hmem pos h1)
        · simp only [List.mem_singleton] at h1
          subst h1
          simp [Position.id]
  | closeStock sym cp n =>
    simp only [Op.openTime?, Option.toList, List.append_nil]
    simp only [applyOp, runOp, sellStock]
    rcases hfind : s.openPositions.find? (stockMatch sym) with _ | pos
    · simp only [Except.map]
      exact ⟨hnd, hmem⟩
    · simp only [Except.map]
      exact ⟨hnd.sublist ((List.eraseP_sublist _).map Position.id),
        fun pos hp => hmem pos ((List.eraseP_sublist _).subset hp)⟩
  | closeOption pid ep n =>
    simp only [Op.openTime?, Option.toList, List.append_nil]
    simp only [applyOp, runOp, closeOption]
    rcases hfind : s.openPositions.find? (idMatch pid) with _ | pos
    · simp only [Except.map]
      exact ⟨hnd, hmem⟩
    · rcases pos with st | o
      · simp only [Position.isOption, Bool.not_false, if_true, Except.map]
        exact ⟨hnd, hmem⟩
      · simp only [Position.isOption, Bool.not_true, Bool.false_eq_true,
          if_false, Except.map]
        exact ⟨hnd.sublist ((List.eraseP_sublist _).map Position.id),
          fun pos hp => hmem pos ((List.eraseP_sublist _).subset hp)⟩
  | reset n =>
    simp [applyOp, runOp, resetPortfolio, initializePortfolio, IdInv,
      Op.openTime?]

/-- The identifier invariant holds after any sequence of operations whose
id-creating clock values are pairwise distinct and fresh. -/
theorem applyOps_idInv (ops : List Op) (s : Portfolio) (T : List ℕ)
    (h : IdInv s T) (hops : (openTimes ops).Nodup)
    (hdisj : ∀ x ∈ openTimes ops, x ∉ T) :
    IdInv (applyOps ops s) (T ++ openTimes ops) := by
  induction ops generalizing s T with
  | nil => simpa [openTimes] using h
  | cons op t ih =>
    rw [applyOps_cons]
    rcases hop : op.openTime? with _ | n
    · have ht : openTimes (op :: t) = openTimes t := by
        simp [openTimes, List.filterMap_cons, hop]
      rw [ht] at hops hdisj ⊢
      have h' := applyOp_idInv ⟨h.1, h.2⟩
        (fun m hm => absurd (hop ▸ hm) (by simp))
      rw [hop] at h'
      simp only [Option.toList, List.append_nil] at h'
      exact ih _ _ h' hops hdisj
    · have ht : openTimes (op :: t) = n :: openTimes t := by
        simp [openTimes, List.filterMap_cons, hop]
      rw [ht] at hops hdisj
      have hn_nin : n ∉ openTimes t := (List.nodup_cons.mp hops).1
      have h' := applyOp_idInv ⟨h.1, h.2⟩
        (fun m hm => by
          rw [hop] at hm
          injection hm with e
          subst e
          exact hdisj n (by simp))
      rw [hop] at h'
      simp only [Option.toList] at h'
      have hrec := ih _ _ h' (List.nodup_cons.mp hops).2
        (fun x hx => by
          intro hxTn
          rcases List.mem_append.mp hxTn with hxT | hxn
          · exact hdisj x (List.mem_cons_of_mem _ hx) hxT
          · simp only [List.mem_singleton] at hxn
            subst hxn
            exact hn_nin hx)
      rw [ht]
      simpa [List.append_assoc] using hrec

/-- C9, counterexample.  Two opens in the same clock millisecond
(`Date.now() = 5` for both) produce two open positions with the same
identifier `"5"`. -/
theorem duplicate_ids_same_millisecond :
    ¬(((applyOps [Op.openStock "A" 1 1 5, Op.openStock "B" 1 1 5]
      (initializePortfolio 0)).openPositions.map Position.id).Nodup) := by
  norm_num [applyOps, applyOp, runOp, buyStock, initializePortfolio,
    Except.map, Position.id, List.Nodup]

/-- C9 (amended).  After any sequence of operations from the fresh ledger
whose open operations run at pairwise distinct clock milliseconds, the
identifiers of the open positions are pairwise distinct; two opens within
one millisecond can collide, see the counterexample. -/
theorem unique_ids_of_distinct_open_times (ops : List Op) (c : ℕ)
    (h : (openTimes ops).Nodup) :
    ((applyOps ops (initializePortfolio c)).openPositions.map
      Position.id).Nodup :=
  (applyOps_idInv ops _ []
    ⟨by simp [initializePortfolio], by simp [initializePortfolio]⟩
    h (by simp)).1

/-- C9, witness: two opens at distinct milliseconds yield distinct ids. -/
theorem unique_ids_of_distinct_open_times_case :
    ((applyOps [Op.openStock "A" 1 1 3, Op.openStock "B" 1 1 4]
      (initializePortfolio 0)).openPositions.map Position.id).Nodup :=
  unique_ids_of_distinct_open_times _ 0
    (by simp [openTimes, List.filterMap_cons, Op.openTime?])

/-- C8.  Valuation is a total function of the ledger and the price lookup;
a position whose lookup fails is carried at cost basis with zero
unrealized P/L; an option position is carried at cost basis with zero
unrealized P/L whatever the lookup returns; and the aggregates satisfy
`totalPortfolioValue = balance + Σ currentValue` and
`totalReturn = totalPortfolioValue − 1,000,000`. -/
theorem valuation_totality_and_fallback (lookup : String → Option ℚ)
    (p : Portfolio) :
    (getPortfolio lookup p).openPositions =
      p.openPositions.map (valuatePosition lookup) ∧
    (∀ pos, lookup pos.symbol = none →
      valuatePosition lookup pos = ⟨pos, none, pos.costBasis, 0, 0⟩) ∧
    (∀ pos, pos.isOption = true →
      (valuatePosition lookup pos).currentValue = pos.costBasis ∧
      (valuatePosition lookup pos).unrealizedPL = 0) ∧
    (getPortfolio lookup p).totalPortfolioValue =
      p.balance + ((p.openPositions.map (valuatePosition lookup)).map
        ValuedPosition.currentValue).sum ∧
    (getPortfolio lookup p).totalReturn =
      (getPortfolio lookup p).totalPortfolioValue - 1000000 := by
  refine ⟨rfl, ?_, ?_, ?_, rfl⟩
  · intro pos h
    simp [valuatePosition, h]
  · intro pos h
    rcases pos with s | o
    · simp [Position.isOption] at h
    · rcases hq : lookup (Position.option o).symbol with _ | price <;>
        simp [valuatePosition, hq, Position.costBasis]
  · simp [getPortfolio, foldl_add_eq_sum]

end DCT
